import Mathlib

/-!
Verification development for the neurology Allocator/Allocation subsystem.

The repository contains two revisions of the allocator core:

* a pointer-based revision (src/unnamed/part_001, first document), whose
  Allocator is itself the concrete local backing store: pool allocates a
  fresh zeroed block on the process heap, repool copies the leading bytes
  into a new block, and read/write move raw bytes; this revision is modelled
  in namespace V1;
* an Address-based revision (src/unnamed/part_002) that keeps pooledMemory,
  bindings, associations and addressPools tables and adds the split-spanning
  read/write engine (willSplit / splitRead); this revision is modelled in
  namespace V2.

Machine addresses and sizes are modelled as Nat; SIZE_T subtraction, which
can wrap in the source, is modelled explicitly modulo 2^64.  Byte memory is
a total function Nat → Nat (the local CopyData never faults on pooled
memory in this model).  Fallible operations return Except NErr.
-/

namespace Neurology

/-- Modulus of 64-bit SIZE_T arithmetic. -/
def SZW : Nat := 2 ^ 64

/-- Wrapping SIZE_T subtraction: unsigned a - b on 64-bit words. -/
def szSub (a b : Nat) : Nat := (a + (SZW - b % SZW)) % SZW

/-- Read n bytes of memory starting at address a. -/
def readRange (mem : Nat → Nat) (a n : Nat) : List Nat :=
  List.ofFn fun i : Fin n => mem (a + i)

/-- Write the bytes of data into memory starting at address a. -/
def writeBytes (mem : Nat → Nat) (a : Nat) (data : List Nat) : Nat → Nat :=
  fun x => if a ≤ x ∧ x < a + data.length then data.getD (x - a) 0 else mem x

/-- ZeroMemory over the range of n bytes at a. -/
def zeroRange (mem : Nat → Nat) (a n : Nat) : Nat → Nat :=
  fun x => if a ≤ x ∧ x < a + n then 0 else mem x

/-- CopyMemory of n bytes from src to dst (non-overlapping use in the source). -/
def copyRange (mem : Nat → Nat) (dst src n : Nat) : Nat → Nat :=
  fun x => if dst ≤ x ∧ x < dst + n then mem (src + (x - dst)) else mem x

/-- Write src into buf starting at byte offset off; bytes that fall outside
buf are dropped.  This models what a MoveMemory into a vector at a given
offset leaves in the vector's own elements. -/
def storeAt (buf src : List Nat) (off : Nat) : List Nat :=
  (List.range buf.length).map fun i =>
    if off ≤ i ∧ i < off + src.length then src.getD (i - off) 0 else buf.getD i 0

/-- Pointwise update of a function-backed table. -/
def fupd {β : Type} (f : Nat → β) (k : Nat) (v : β) : Nat → β :=
  fun x => if x = k then v else f x

/-- std::set insert; the list records the set's iteration order. -/
def insertSet (i : Nat) (l : List Nat) : List Nat :=
  if i ∈ l then l else l ++ [i]

/-- The exception taxonomy of the allocator sources, flattened. -/
inductive NErr where
  | zeroSize
  | doubleAllocation
  | deadAllocation
  | unpooled
  | unbound
  | bound
  | unmanaged
  | offsetOutOfRange
  | addressOutOfRange
  | badPointer
  | noAllocation
  | splitsExceeded
deriving DecidableEq, Repr

deriving instance DecidableEq for Except

namespace V2

/-- The state read by the part_002 split engine: the pooledMemory table and
the bindings table as key-sorted extent lists (start, size), plus byte
memory and the split toggle.  The representative Allocation bound at a
bindings key covers exactly the pooled extent starting there (bind creates
the AddressPool for the key from pooledMemory), so a bindings entry is
modelled as that extent. -/
structure SplitState where
  pool : List (Nat × Nat)
  binds : List (Nat × Nat)
  mem : Nat → Nat
  split : Bool

/-- Allocator::allowSplitting (part_002 lines 650-655). -/
def allowSplitting (s : SplitState) : SplitState := { s with split := true }

/-- Allocator::denySplitting (part_002 lines 657-662). -/
def denySplitting (s : SplitState) : SplitState := { s with split := false }

/-- Allocator::splits (part_002 lines 664-669). -/
def splits (s : SplitState) : Bool := s.split

/-- std::map::upper_bound over a key-sorted extent list: the first entry
whose key is strictly greater than a. -/
def mapUB : List (Nat × Nat) → Nat → Option (Nat × Nat)
  | [], _ => none
  | e :: es, a => if a < e.1 then some e else mapUB es a

/-- upper_bound wound back one entry: the last entry whose key is ≤ a,
none when the map has no such entry (the source would decrement begin,
which is undefined; callers only reach this after a successful find). -/
def mapLE : List (Nat × Nat) → Nat → Option (Nat × Nat)
  | [], _ => none
  | e :: es, a =>
    if a < e.1 then none
    else
      match mapLE es a with
      | some f => some f
      | none => some e

/-- Allocation::inRange(const Address &) (part_002 lines 201-206):
start ≤ address < end. -/
def inRangeAddr (e : Nat × Nat) (x : Nat) : Bool :=
  decide (e.1 ≤ x) && decide (x < e.1 + e.2)

/-- Allocation::inRange(const Address &, SIZE_T) (part_002 lines 208-213):
size ≠ 0 and both the first and the last touched position are in range.
When n = 0 the remaining conjuncts are dead in the source; a + n - 1 is
truncated Nat subtraction here, unobservable behind the short-circuit. -/
def inRange (e : Nat × Nat) (a n : Nat) : Bool :=
  (n != 0) && inRangeAddr e a && inRangeAddr e (a + n - 1)

/-- Allocation::inRange(SIZE_T offset) (part_002 lines 178-188) for an
allocation over extent e.  The isNull allocator/association components are
not representable on a bare extent; the size-zero component is. -/
def inRangeOff (e : Nat × Nat) (o : Nat) : Bool :=
  if e.2 = 0 then false else inRangeAddr e (e.1 + o)

/-- Allocation::inRange(SIZE_T, SIZE_T) (part_002 lines 190-198). -/
def inRangeOff2 (e : Nat × Nat) (o n : Nat) : Bool :=
  (n != 0) && inRangeOff e o && inRangeOff e (o + n - 1)

/-- Allocator::find(const Address) (part_002 lines 904-926): an exact
bindings key wins; otherwise upper_bound wound back one, kept only if the
allocation bound there contains the address. -/
def find (s : SplitState) (a : Nat) : Option (Nat × Nat) :=
  match s.binds.find? (fun e => e.1 == a) with
  | some e => some e
  | none =>
    match mapLE s.binds a with
    | none => none
    | some e => if inRangeAddr e a then some e else none

/-- Allocator::willSplit (part_002 lines 712-736). -/
def willSplit (s : SplitState) (a n : Nat) : Bool :=
  match find s a with
  | none => false
  | some e =>
    if inRange e a n then false
    else
      match mapUB s.pool a with
      | none => false
      | some p => decide (e.1 + e.2 = p.1)

/-- Allocator::read(const Allocation *, const Address &, SIZE_T)
(part_002 lines 1225-1231): range check against the allocation, then the
raw readAddress of the concrete local store. -/
def readAlloc (mem : Nat → Nat) (e : Nat × Nat) (a n : Nat) : Except NErr (List Nat) :=
  if inRange e a n then .ok (readRange mem a n) else .error .addressOutOfRange

/-- The walk of Allocator::splitRead (part_002 lines 1111-1152), one
recursive step per bindings entry.  cur is the binding under the iterator,
rest the bindings after it in key order.  Each chunk is appended by
resizing the result and then copying to result.data() + result.size()
measured after the resize - an offset one chunk past the payload, so the
chunk bytes never land inside the vector (the source write is out of
bounds); storeAt at offset acc.length + chunk.length reproduces the
vector's element values.  size -= newSize is wrapping SIZE_T
subtraction. -/
def splitReadLoop (mem : Nat → Nat) (cur : Nat × Nat) (rest : List (Nat × Nat))
    (addr n : Nat) (acc : List Nat) : Except NErr (List Nat) :=
  let step : Except NErr (List Nat × Nat) :=
    if inRange cur addr n then
      match readAlloc mem cur addr n with
      | .error er => .error er
      | .ok chunk => .ok (chunk, 0)
    else
      let newSize := szSub (cur.1 + cur.2) addr
      match readAlloc mem cur addr newSize with
      | .error er => .error er
      | .ok chunk => .ok (chunk, szSub n newSize)
  match step with
  | .error er => .error er
  | .ok (chunk, rem) =>
    let acc₂ := storeAt (acc ++ List.replicate chunk.length 0) chunk
      (acc.length + chunk.length)
    if rem = 0 then .ok acc₂
    else
      match rest with
      | [] => .error .splitsExceeded
      | next :: rest₂ =>
        if cur.1 + cur.2 ≠ next.1 then .error .splitsExceeded
        else splitReadLoop mem next rest₂ next.1 rem acc₂

/-- lower_bound on bindings wound back one when not exact (part_002 lines
1104-1107): the walk's starting binding and the bindings after it. -/
def windBack : List (Nat × Nat) → Nat → Option ((Nat × Nat) × List (Nat × Nat))
  | [], _ => none
  | e :: es, a =>
    if a < e.1 then none
    else
      match windBack es a with
      | some r => some r
      | none => some (e, es)

/-- The non-split entry check of Allocator::splitRead (part_002 lines
1099-1101): when willSplit is false the source performs
this->read(startAddress, size) without returning it (the return is
missing), so only that read's failure is observable before the walk. -/
def splitPre (s : SplitState) (e0 : Nat × Nat) (a n : Nat) : Except NErr Unit :=
  if willSplit s a n then .ok ()
  else
    match readAlloc s.mem e0 a n with
    | .error er => .error er
    | .ok _ => .ok ()

/-- Allocator::splitRead (part_002 lines 1088-1158).  The windBack-none
case would decrement begin() in the source (undefined behaviour) and is
unreachable after a successful find. -/
def splitRead (s : SplitState) (a n : Nat) : Except NErr (List Nat) :=
  match find s a with
  | none => .error .noAllocation
  | some e0 =>
    match splitPre s e0 a n with
    | .error er => .error er
    | .ok _ =>
      match windBack s.binds a with
      | none => .error .noAllocation
      | some (cur, rest) => splitReadLoop s.mem cur rest a n []

/-- Allocator::read(const Address &, SIZE_T) (part_002 lines 965-975). -/
def readAt (s : SplitState) (a n : Nat) : Except NErr (List Nat) :=
  match find s a with
  | none => .error .noAllocation
  | some e => if willSplit s a n then splitRead s a n else readAlloc s.mem e a n

/-- Allocation::read(const Address &, SIZE_T) (part_002 lines 472-483) for
a handle bound to extent e: the single-address range check, then dispatch
into splitRead or the plain allocator read.  (The throwIfNotValid guard of
the source is the self-referential isValid chain; it consults only the
binding tables, never the split flag, and is omitted on a bare extent.) -/
def readAllocation (s : SplitState) (e : Nat × Nat) (a n : Nat) :
    Except NErr (List Nat) :=
  if inRangeAddr e a = false then .error .addressOutOfRange
  else if willSplit s a n then splitRead s a n
  else readAlloc s.mem e a n

/-- Scenario state for C1: adjacent pooled and bound extents A = [0,16)
and B = [16,24), byte x of memory holding the value x. -/
def stC1 : SplitState := ⟨[(0, 16), (16, 8)], [(0, 16), (16, 8)], (fun x => x), true⟩

/-- Scenario state for C2: adjacent pooled and bound extents A = [0,16)
and B = [16,24). -/
def stC2 : SplitState := ⟨[(0, 16), (16, 8)], [(0, 16), (16, 8)], (fun x => x % 256), true⟩

/-- Scenario state for C3: extents A = [0,16), B = [16,24), C = [30,40)
with the unpooled gap [24,30). -/
def stC3 : SplitState :=
  ⟨[(0, 16), (16, 8), (30, 10)], [(0, 16), (16, 8), (30, 10)], (fun x => x % 256), true⟩

/-- Adjacent-extent state used by the C3 witness. -/
def stC3w : SplitState := ⟨[(0, 16), (16, 8)], [(0, 16), (16, 8)], (fun x => x % 256), true⟩

/-- The binding tables of the part_002 Allocator that bind/rebind/unbind
mutate: pooledMemory, bindings, associations, and addressPools (keyed by
base address, holding the extent size that querySize reports). -/
structure BState where
  pooled : Nat → Option Nat
  binds : Nat → Option (List Nat)
  assoc : Nat → Option Nat
  apools : Nat → Option Nat

/-- Allocator::isPooled (part_002 lines 671-676). -/
def isPooledB (st : BState) (a : Nat) : Bool := (st.pooled a).isSome

/-- Allocator::isBound (part_002 lines 685-703): membership of the
allocation in the binding set at its bound base address.  (The source
routes the address through allocation.address(), whose guard is itself
phrased via isBound; the membership semantics its callers rely on is
modelled directly through the associations table.) -/
def isBoundB (st : BState) (i : Nat) : Bool :=
  match st.assoc i with
  | none => false
  | some b => decide (i ∈ (st.binds b).getD [])

/-- Allocator::bind (part_002 lines 989-1006): requires the address pooled
and the allocation unbound; inserts into the binding set, creates the
AddressPool for the base from pooledMemory when absent, and records the
association. -/
def bindB (st : BState) (i : Nat) (address : Nat) : Except NErr BState :=
  if (st.pooled address).isNone then .error .unpooled
  else if isBoundB st i then .error .bound
  else
    let l := (st.binds address).getD []
    let ap := if (st.apools address).isNone
      then fupd st.apools address (some ((st.pooled address).getD 0))
      else st.apools
    .ok { st with binds := fupd st.binds address (some (insertSet i l)),
                  apools := ap,
                  assoc := fupd st.assoc i (some address) }

/-- Allocator::unbind (part_002 lines 1041-1065).  The bound address is
the allocation's associated base; addressPools and associations lose
their entries unconditionally; when the binding set empties, the entry is
erased and a still-pooled address is unpooled - the virtual unpool is the
local backing store's unpoolAddress (part_000 lines 247-260), an erasure
from pooledMemory. -/
def unbindB (st : BState) (i : Nat) : Except NErr BState :=
  match st.assoc i with
  | none => .error .unbound
  | some b =>
    if decide (i ∈ (st.binds b).getD []) = false then .error .unbound
    else if (st.pooled b).isNone then .error .unpooled
    else
      let l := ((st.binds b).getD []).erase i
      let st₂ := { st with apools := fupd st.apools b none,
                           assoc := fupd st.assoc i none,
                           binds := fupd st.binds b (some l) }
      if l.length = 0 then
        let st₃ := { st₂ with binds := fupd st₂.binds b none }
        if (st₃.pooled b).isSome then
          .ok { st₃ with pooled := fupd st₃.pooled b none }
        else .ok st₃
      else .ok st₂

/-- Allocator::rebind (part_002 lines 1008-1039).  An unbound allocation
degrades to bind.  Otherwise the allocation moves from the old binding set
to the new one; an emptied old set is erased and its extent unpooled
inside the same call; otherwise the source only relabels Address
identifiers (moveIdentifier), which touches no pool or binding table. -/
def rebindB (st : BState) (i : Nat) (newAddress : Nat) : Except NErr BState :=
  if isBoundB st i = false then bindB st i newAddress
  else
    let b := (st.assoc i).getD 0
    if (st.pooled b).isNone then .error .unpooled
    else if (st.pooled newAddress).isNone then .error .unpooled
    else
      let binds₁ := fupd st.binds newAddress
        (some (insertSet i ((st.binds newAddress).getD [])))
      let lOld := ((binds₁ b).getD []).erase i
      let binds₂ := fupd binds₁ b (some lOld)
      let st₂ := { st with binds := binds₂,
                           assoc := fupd st.assoc i (some newAddress) }
      if lOld.length = 0 then
        .ok { st₂ with binds := fupd st₂.binds b none,
                       pooled := fupd st₂.pooled b none }
      else .ok st₂

/-- Concrete part_002 binding state for the C5 witness: extent [1,5)
pooled and bound by allocations 0 and 1, a second extent at 8. -/
def stB : BState :=
  { pooled := fun b => if b = 1 then some 4 else if b = 8 then some 2 else none,
    binds := fun b => if b = 1 then some [0, 1] else none,
    assoc := fun i => if i = 0 then some 1 else if i = 1 then some 1 else none,
    apools := fun b => if b = 1 then some 4 else none }

/-- Concrete part_002 binding state for the rebind half of the C5
witness: extent [1,5) bound only by allocation 0, extent [8,10) free. -/
def stB2 : BState :=
  { pooled := fun b => if b = 1 then some 4 else if b = 8 then some 2 else none,
    binds := fun b => if b = 1 then some [0] else none,
    assoc := fun i => if i = 0 then some 1 else none,
    apools := fun b => if b = 1 then some 4 else none }

/-- Key-sorted, pairwise-disjoint extent list. -/
abbrev SortedDisjoint (l : List (Nat × Nat)) : Prop :=
  l.Pairwise fun e f => e.1 + e.2 ≤ f.1

/-- Well-formedness of a split-engine state: both tables key-sorted and
disjoint, every binding backed by its pooled extent, extents nonempty. -/
abbrev Wf (s : SplitState) : Prop :=
  SortedDisjoint s.pool ∧ SortedDisjoint s.binds ∧
    (∀ e ∈ s.binds, e ∈ s.pool) ∧ (∀ e ∈ s.pool, 0 < e.2)

end V2

namespace V1

/-- The Allocation handle record of part_001: raw pointer and size. -/
structure HState where
  ptr : Nat
  sz : Nat
deriving DecidableEq, Repr

/-- The part_001 Allocator, which is itself the concrete local backing
store: memoryPool and bindings as function-backed tables, the set of
allocator-created Allocation objects, the handle records by id, the next
fresh heap block, and byte memory.  NULL is address 0; new BYTE hands out
the block at next, which well-formed states keep beyond every pooled
extent. -/
structure LState where
  pool : Nat → Option Nat
  binds : Nat → Option (List Nat)
  allocs : Nat → Bool
  hs : Nat → HState
  next : Nat
  mem : Nat → Nat

/-- Allocator::isPooled (part_001 lines 699-704). -/
def isPooled (st : LState) (p : Nat) : Bool := (st.pool p).isSome

/-- Allocator::isBound (part_001 lines 679-697): the binding set at the
handle's pointer contains the handle. -/
def isBound (st : LState) (i : Nat) : Bool :=
  match st.binds (st.hs i).ptr with
  | none => false
  | some l => decide (i ∈ l)

/-- Allocation::isValid (part_001 lines 174-179); every handle of this
model has an allocator. -/
def isValid (st : LState) (i : Nat) : Bool :=
  ((st.hs i).ptr != 0) && ((st.hs i).sz != 0) && isPooled st (st.hs i).ptr

/-- Allocation::isNull (part_001 lines 188-193). -/
def isNull (st : LState) (i : Nat) : Bool :=
  ((st.hs i).ptr == 0) || ((st.hs i).sz == 0)

/-- Allocation::inRange(SIZE_T) (part_001 lines 195-209): note the
inclusive upper end (pointer + offset ≤ end). -/
def inRangeOff (h : HState) (o : Nat) : Bool :=
  if h.ptr = 0 ∨ h.sz = 0 then false
  else decide (h.ptr ≤ h.ptr + o) && decide (h.ptr + o ≤ h.ptr + h.sz)

/-- Allocation::inRange(SIZE_T, SIZE_T) (part_001 lines 211-216). -/
def inRangeOff2 (h : HState) (o n : Nat) : Bool :=
  inRangeOff h o && inRangeOff h (o + n)

/-- Allocation::inRange(const LPVOID) (part_001 lines 218-230). -/
def inRangeAddr (h : HState) (x : Nat) : Bool :=
  if h.ptr = 0 ∨ h.sz = 0 then false
  else decide (h.ptr ≤ x) && decide (x ≤ h.ptr + h.sz)

/-- Allocation::inRange(const LPVOID, SIZE_T) (part_001 lines 232-242). -/
def inRangeAddr2 (h : HState) (x n : Nat) : Bool :=
  inRangeAddr h x && inRangeAddr h (x + n)

/-- The exception Allocation::throwIfInvalid (part_001 lines 252-267)
raises on an invalid allocation: dead pointer first, then zero size, then
the unpooled address. -/
def invalidErr (st : LState) (i : Nat) : NErr :=
  if (st.hs i).ptr = 0 then .deadAllocation
  else if (st.hs i).sz = 0 then .zeroSize
  else .unpooled

/-- Allocator::pool (part_001 lines 759-778): refuse size 0, take a fresh
zeroed heap block, record it in memoryPool, return its address. -/
def pool (st : LState) (n : Nat) : Except NErr (Nat × LState) :=
  if n = 0 then .error .zeroSize
  else
    .ok (st.next,
      { st with pool := fupd st.pool st.next (some n),
                mem := zeroRange st.mem st.next n,
                next := st.next + n })

/-- Allocator::bind (part_001 lines 913-927): pooled address, unbound
allocation; insert into the binding set and point the handle at the
extent, adopting the pooled size. -/
def bind (st : LState) (i : Nat) (address : Nat) : Except NErr LState :=
  if isPooled st address = false then .error .unpooled
  else if isBound st i then .error .bound
  else
    let l := (st.binds address).getD []
    .ok { st with binds := fupd st.binds address (some (insertSet i l)),
                  hs := fupd st.hs i ⟨address, (st.pool address).getD 0⟩ }

/-- The tail of Allocator::unpool once no binding entry remains (part_001
lines 833-835): zero the extent, free the block, erase it from the pool. -/
def unpoolRaw (st : LState) (address : Nat) : LState :=
  { st with mem := zeroRange st.mem address ((st.pool address).getD 0),
            pool := fupd st.pool address none }

/-- Allocator::unbind (part_001 lines 956-990).  The handle is removed
from its extent's binding set and cleared; an emptied entry is erased; an
allocator-created handle is deleted (erased from the created set); and an
emptied, still-pooled address is unpooled in the same call - at that point
its bindings entry is gone, so the nested unpool reduces to unpoolRaw. -/
def unbind (st : LState) (i : Nat) : Except NErr LState :=
  if isBound st i = false then .error .unbound
  else if isPooled st (st.hs i).ptr = false then .error .unpooled
  else
    let b := (st.hs i).ptr
    let l := ((st.binds b).getD []).erase i
    let binds₂ := if l.length = 0 then fupd st.binds b none
      else fupd st.binds b (some l)
    let st₂ := { st with binds := binds₂,
                         hs := fupd st.hs i ⟨0, 0⟩,
                         allocs := fun x => if x = i then false else st.allocs x }
    if l.length = 0 ∧ isPooled st₂ b = true then .ok (unpoolRaw st₂ b)
    else .ok st₂

/-- Sequential unbinding of a snapshot of a binding set.  The source
iterates the live std::set while unbind erases from it (iterator
invalidation); the intended full sweep is modelled by folding over the
snapshot. -/
def unbindList : LState → List Nat → Except NErr LState
  | st, [] => .ok st
  | st, i :: is =>
    match unbind st i with
    | .error er => .error er
    | .ok st₂ => unbindList st₂ is

/-- Allocator::unpool (part_001 lines 811-836): unbind every allocation in
the address's binding set; if one of those unbinds already destroyed the
extent, stop; otherwise zero, free and erase it. -/
def unpool (st : LState) (address : Nat) : Except NErr LState :=
  if isPooled st address = false then .error .unpooled
  else
    match st.binds address with
    | none => .ok (unpoolRaw st address)
    | some l =>
      match unbindList st l with
      | .error er => .error er
      | .ok st₂ =>
        if isPooled st₂ address = false then .ok st₂
        else .ok (unpoolRaw st₂ address)

/-- Allocator::rebind (part_001 lines 929-954).  An unbound allocation
degrades to bind.  Otherwise the handle moves to the new extent's binding
set and adopts the new pooled size; the old bindings entry is left behind
(possibly empty), and an emptied old set triggers unpool of the old
address inside the same call. -/
def rebind (st : LState) (i : Nat) (newAddress : Nat) : Except NErr LState :=
  if isBound st i = false then bind st i newAddress
  else if isPooled st (st.hs i).ptr = false then .error .unpooled
  else if isPooled st newAddress = false then .error .unpooled
  else
    let old := (st.hs i).ptr
    let binds₁ := fupd st.binds newAddress
      (some (insertSet i ((st.binds newAddress).getD [])))
    let lOld := ((binds₁ old).getD []).erase i
    let binds₂ := fupd binds₁ old (some lOld)
    let st₂ := { st with binds := binds₂,
                         hs := fupd st.hs i ⟨newAddress, (st.pool newAddress).getD 0⟩ }
    if lOld.length = 0 then unpool st₂ old else .ok st₂

/-- Sequential rebinding of a snapshot of a binding set (see unbindList). -/
def rebindList : LState → List Nat → Nat → Except NErr LState
  | st, [], _ => .ok st
  | st, i :: is, newAddress =>
    match rebind st i newAddress with
    | .error er => .error er
    | .ok st₂ => rebindList st₂ is newAddress

/-- Allocator::repool (part_001 lines 780-809): pool a fresh block, copy
the leading min(newSize, oldSize) bytes of the old extent into it, rebind
every allocation bound to the old address, then unpool the old address if
the rebinds left it pooled. -/
def repool (st : LState) (address : Nat) (n : Nat) : Except NErr (Nat × LState) :=
  if isPooled st address = false then .error .unpooled
  else
    match pool st n with
    | .error er => .error er
    | .ok (newPool, st₁) =>
      let m := min n ((st₁.pool address).getD 0)
      let st₂ := { st₁ with mem := copyRange st₁.mem newPool address m }
      match
        (match st₂.binds address with
          | none => Except.ok st₂
          | some l => rebindList st₂ l newPool) with
      | .error er => .error er
      | .ok st₃ =>
        if isPooled st₃ address = true then
          match unpool st₃ address with
          | .error er => .error er
          | .ok st₄ => .ok (newPool, st₄)
        else .ok (newPool, st₃)

/-- Allocation::allocate (part_001 lines 389-401): double-allocation
guard, pool a fresh extent, point the handle at it, bind. -/
def allocate (st : LState) (i : Nat) (n : Nat) : Except NErr LState :=
  if (st.hs i).ptr ≠ 0 ∧ isPooled st (st.hs i).ptr = true then .error .doubleAllocation
  else
    match pool st n with
    | .error er => .error er
    | .ok (p, st₁) => bind { st₁ with hs := fupd st₁.hs i ⟨p, n⟩ } i p

/-- Allocation::reallocate (part_001 lines 403-413): an invalid handle
allocates afresh; otherwise repool the bound address (which rebinds the
handle) and adopt the new pointer and size. -/
def reallocate (st : LState) (i : Nat) (n : Nat) : Except NErr LState :=
  if isValid st i = false then allocate st i n
  else
    match repool st (st.hs i).ptr n with
    | .error er => .error er
    | .ok (newPool, st₂) => .ok { st₂ with hs := fupd st₂.hs i ⟨newPool, n⟩ }

/-- Allocation::deallocate (part_001 lines 415-422). -/
def deallocate (st : LState) (i : Nat) : Except NErr LState :=
  if isValid st i = false then .error (invalidErr st i)
  else if isBound st i = false then .error .unbound
  else unbind st i

/-- Allocator::deallocate (part_001 lines 879-887): release the handle's
whole extent via unpool, regardless of the other bindings on it. -/
def deallocateA (st : LState) (i : Nat) : Except NErr LState :=
  if st.allocs i = false then .error .unmanaged
  else if isPooled st (st.hs i).ptr = false then .error .unpooled
  else unpool st (st.hs i).ptr

/-- Allocator::read (part_001 lines 889-901) reached through
Allocation::read(LPVOID, SIZE_T) (lines 453-459): bound check, address
range check, then the raw copy (never faulting on this model's local
memory). -/
def readHAddr (st : LState) (i : Nat) (x n : Nat) : Except NErr (List Nat) :=
  if isBound st i = false then .error .unbound
  else if inRangeAddr2 (st.hs i) x n = false then .error .addressOutOfRange
  else .ok (readRange st.mem x n)

/-- Allocation::read(SIZE_T, SIZE_T) (part_001 lines 438-451): the address
form at pointer + offset, with AddressOutOfRange rethrown as
OffsetOutOfRange. -/
def readH (st : LState) (i : Nat) (o n : Nat) : Except NErr (List Nat) :=
  match readHAddr st i ((st.hs i).ptr + o) n with
  | .error .addressOutOfRange => .error .offsetOutOfRange
  | r => r

/-- Allocation::address(SIZE_T) (part_001 lines 327-338). -/
def addrOf (st : LState) (i : Nat) (o : Nat) : Except NErr Nat :=
  if isValid st i = false then .error (invalidErr st i)
  else if o > (st.hs i).sz then .error .offsetOutOfRange
  else .ok ((st.hs i).ptr + o)

/-- Allocator::write (part_001 lines 903-911) reached through
Allocation::write(LPVOID, LPVOID, SIZE_T) (lines 517-523). -/
def writeHAddr (st : LState) (i : Nat) (x : Nat) (data : List Nat) :
    Except NErr LState :=
  if isBound st i = false then .error .unbound
  else if inRangeAddr2 (st.hs i) x data.length = false then .error .addressOutOfRange
  else .ok { st with mem := writeBytes st.mem x data }

/-- Allocation::write(SIZE_T, const Data) (part_001 lines 468-481):
resolve the offset through address(offset), then the address form, with
AddressOutOfRange rethrown as OffsetOutOfRange. -/
def writeH (st : LState) (i : Nat) (o : Nat) (data : List Nat) :
    Except NErr LState :=
  match addrOf st i o with
  | .error er => .error er
  | .ok x =>
    match writeHAddr st i x data with
    | .error .addressOutOfRange => .error .offsetOutOfRange
    | r => r

/-- Concrete part_001 allocator state for witnesses: one extent [1,5)
bound to allocator-created handle 0. -/
def stV1 : LState :=
  { pool := fun b => if b = 1 then some 4 else none,
    binds := fun b => if b = 1 then some [0] else none,
    allocs := fun i => i == 0,
    hs := fun i => if i = 0 then ⟨1, 4⟩ else ⟨0, 0⟩,
    next := 5,
    mem := fun _ => 0 }

/-- Concrete part_001 allocator state with two handles 0 (allocator
created) and 1 (client held) aliasing the extent [1,5). -/
def stV1b : LState :=
  { pool := fun b => if b = 1 then some 4 else none,
    binds := fun b => if b = 1 then some [0, 1] else none,
    allocs := fun i => i == 0,
    hs := fun i => if i = 0 then ⟨1, 4⟩ else if i = 1 then ⟨1, 4⟩ else ⟨0, 0⟩,
    next := 5,
    mem := fun _ => 0 }

end V1

theorem storeAt_length (buf src : List Nat) (off : Nat) :
    (storeAt buf src off).length = buf.length := by
  simp [storeAt]

theorem fupd_same {β : Type} (f : Nat → β) (k : Nat) (v : β) : fupd f k v k = v := by
  simp [fupd]

theorem fupd_other {β : Type} (f : Nat → β) (k x : Nat) (v : β) (h : x ≠ k) :
    fupd f k v x = f x := by
  simp [fupd, h]

theorem readRange_writeBytes (mem : Nat → Nat) (b : Nat) (data : List Nat) :
    readRange (writeBytes mem b data) b data.length = data := by
  rw [readRange]
  conv_rhs => rw [← List.ofFn_getElem data]
  congr 1
  funext j
  have hj := j.isLt
  simp only [writeBytes]
  rw [if_pos ⟨Nat.le_add_right _ _, by omega⟩, Nat.add_sub_cancel_left]
  exact (List.getD_eq_getElem data 0 hj).symm ▸ rfl

namespace V2

theorem mapLE_mem {l : List (Nat × Nat)} {a : Nat} {e : Nat × Nat}
    (h : mapLE l a = some e) : e ∈ l ∧ e.1 ≤ a := by
  induction l with
  | nil => simp [mapLE] at h
  | cons x xs ih =>
    by_cases hx : a < x.1
    · simp [mapLE, hx] at h
    · rw [mapLE, if_neg hx] at h
      cases hml : mapLE xs a with
      | some f =>
        rw [hml] at h
        injection h with h
        subst h
        obtain ⟨hm, hle⟩ := ih hml
        exact ⟨List.mem_cons_of_mem _ hm, hle⟩
      | none =>
        rw [hml] at h
        injection h with h
        subst h
        exact ⟨List.mem_cons_self _ _, Nat.le_of_not_lt hx⟩

theorem mapLE_ge {l : List (Nat × Nat)}
    (hl : l.Pairwise fun p q => p.1 < q.1) {e : Nat × Nat} {a : Nat}
    (he : e ∈ l) (hea : e.1 ≤ a) :
    ∃ f, mapLE l a = some f ∧ e.1 ≤ f.1 := by
  induction l with
  | nil => cases he
  | cons x xs ih =>
    rw [List.pairwise_cons] at hl
    rcases List.mem_cons.mp he with rfl | hexs
    · have hx : ¬ a < e.1 := Nat.not_lt.mpr hea
      rw [mapLE, if_neg hx]
      cases hml : mapLE xs a with
      | some f =>
        obtain ⟨hfm, _⟩ := mapLE_mem hml
        exact ⟨f, rfl, Nat.le_of_lt (hl.1 f hfm)⟩
      | none => exact ⟨e, rfl, Nat.le_refl _⟩
    · have hxa : x.1 ≤ a := Nat.le_trans (Nat.le_of_lt (hl.1 e hexs)) hea
      have hx : ¬ a < x.1 := Nat.not_lt.mpr hxa
      obtain ⟨f, hml, hef⟩ := ih hl.2 hexs
      rw [mapLE, if_neg hx, hml]
      exact ⟨f, rfl, hef⟩

theorem mapUB_mem {l : List (Nat × Nat)} {a : Nat} {p : Nat × Nat}
    (h : mapUB l a = some p) : p ∈ l ∧ a < p.1 := by
  induction l with
  | nil => simp [mapUB] at h
  | cons x xs ih =>
    by_cases hx : a < x.1
    · rw [mapUB, if_pos hx] at h
      injection h with h
      subst h
      exact ⟨List.mem_cons_self _ _, hx⟩
    · rw [mapUB, if_neg hx] at h
      obtain ⟨hm, hlt⟩ := ih h
      exact ⟨List.mem_cons_of_mem _ hm, hlt⟩

theorem mapUB_eq {l : List (Nat × Nat)}
    (hk : l.Pairwise fun p q => p.1 < q.1) {a : Nat} {p : Nat × Nat}
    (hp : p ∈ l) (hap : a < p.1)
    (hmin : ∀ q ∈ l, a < q.1 → p.1 ≤ q.1) : mapUB l a = some p := by
  induction l with
  | nil => cases hp
  | cons x xs ih =>
    rw [List.pairwise_cons] at hk
    by_cases hx : a < x.1
    · rw [mapUB, if_pos hx]
      rcases List.mem_cons.mp hp with rfl | hpxs
      · rfl
      · have h1 : x.1 < p.1 := hk.1 p hpxs
        have h2 : p.1 ≤ x.1 := hmin x (List.mem_cons_self _ _) hx
        omega
    · rw [mapUB, if_neg hx]
      rcases List.mem_cons.mp hp with rfl | hpxs
      · omega
      · exact ih hk.2 hpxs fun q hq hqa => hmin q (List.mem_cons_of_mem _ hq) hqa

theorem sorted_keys_lt {l : List (Nat × Nat)} (hl : SortedDisjoint l)
    (hpos : ∀ x ∈ l, 0 < x.2) : l.Pairwise fun p q => p.1 < q.1 := by
  induction l with
  | nil => exact List.Pairwise.nil
  | cons x xs ih =>
    cases hl with
    | cons hx hxs =>
      refine List.Pairwise.cons (fun q hq => ?_)
        (ih hxs fun y hy => hpos y (List.mem_cons_of_mem _ hy))
      have h1 := hx q hq
      have h2 := hpos x (List.mem_cons_self _ _)
      omega

theorem disjoint_cases {l : List (Nat × Nat)} (hl : SortedDisjoint l)
    {e f : Nat × Nat} (he : e ∈ l) (hf : f ∈ l) (hne : e ≠ f) :
    e.1 + e.2 ≤ f.1 ∨ f.1 + f.2 ≤ e.1 := by
  have hsym : Symmetric fun p q : Nat × Nat => p.1 + p.2 ≤ q.1 ∨ q.1 + q.2 ≤ p.1 :=
    fun _ _ h => h.symm
  have hp : l.Pairwise fun p q : Nat × Nat => p.1 + p.2 ≤ q.1 ∨ q.1 + q.2 ≤ p.1 :=
    hl.imp fun h => Or.inl h
  exact List.Pairwise.forall hsym hp he hf hne

theorem covering_unique {l : List (Nat × Nat)} (hl : SortedDisjoint l)
    {e f : Nat × Nat} {a : Nat} (he : e ∈ l) (hf : f ∈ l)
    (h1 : e.1 ≤ a) (h2 : a < e.1 + e.2) (h3 : f.1 ≤ a) (h4 : a < f.1 + f.2) :
    e = f := by
  by_contra hne
  rcases disjoint_cases hl he hf hne with h | h <;> omega

theorem find_covers {s : SplitState} (hw : Wf s) {a : Nat} {e : Nat × Nat}
    (h : find s a = some e) : e ∈ s.binds ∧ e.1 ≤ a ∧ a < e.1 + e.2 := by
  obtain ⟨hps, hbs, hsub, hpos⟩ := hw
  rw [find] at h
  split at h
  · next x hf =>
    have hxe : x = e := by injection h
    have hmem := List.mem_of_find?_eq_some hf
    have hkey : x.1 = a := by simpa using List.find?_some hf
    have hpose : 0 < x.2 := hpos _ (hsub _ hmem)
    rw [← hxe]
    exact ⟨hmem, Nat.le_of_eq hkey, by omega⟩
  · next hf =>
    split at h
    · cases h
    · next f hml =>
      split at h
      · next hir =>
        injection h with h
        subst h
        obtain ⟨hm, _⟩ := mapLE_mem hml
        rw [inRangeAddr, Bool.and_eq_true, decide_eq_true_eq, decide_eq_true_eq] at hir
        exact ⟨hm, hir.1, hir.2⟩
      · cases h

theorem find_of_covers {s : SplitState} (hw : Wf s) {a : Nat} {e : Nat × Nat}
    (he : e ∈ s.binds) (h1 : e.1 ≤ a) (h2 : a < e.1 + e.2) :
    find s a = some e := by
  obtain ⟨hps, hbs, hsub, hpos⟩ := hw
  have hposb : ∀ x ∈ s.binds, 0 < x.2 := fun x hx => hpos x (hsub x hx)
  rw [find]
  split
  · next x hf =>
    have hxm := List.mem_of_find?_eq_some hf
    have hxa : x.1 = a := by simpa using List.find?_some hf
    have hex : e = x := by
      have hx2 := hposb x hxm
      exact covering_unique hbs he hxm h1 h2 (Nat.le_of_eq hxa) (by omega)
    rw [hex]
  · next hf =>
    have hne : e.1 ≠ a := by
      intro hea
      have := List.find?_eq_none.mp hf e he
      simp [hea] at this
    obtain ⟨f, hml, hef⟩ := mapLE_ge (sorted_keys_lt hbs hposb) he h1
    obtain ⟨hfm, hfa⟩ := mapLE_mem hml
    have hfe : f = e := by
      by_contra hne2
      have hfpos := hposb f hfm
      rcases disjoint_cases hbs hfm he hne2 with h | h <;> omega
    subst hfe
    rw [hml]
    have hir : inRangeAddr f a = true := by
      rw [inRangeAddr, Bool.and_eq_true, decide_eq_true_eq, decide_eq_true_eq]
      exact ⟨h1, h2⟩
    show (if inRangeAddr f a = true then some f else none) = some f
    rw [if_pos hir]

theorem SZW_lit : SZW = 18446744073709551616 := by norm_num [SZW]

/-- Every chunk the walk appends adds exactly the bytes it consumed from the
remaining span (modulo SIZE_T wrap), so a successful walk returns a buffer
whose length is congruent to the requested size. -/
theorem splitReadLoop_length (mem : Nat → Nat) :
    ∀ (rest : List (Nat × Nat)) (cur : Nat × Nat) (addr n : Nat) (acc d : List Nat),
      splitReadLoop mem cur rest addr n acc = .ok d →
      d.length % SZW = (acc.length + n) % SZW := by
  intro rest
  induction rest with
  | nil =>
    intro cur addr n acc d h
    rw [splitReadLoop] at h
    by_cases hc : inRange cur addr n = true
    · simp [readAlloc, hc] at h
      subst h
      simp [storeAt_length, readRange]
    · rw [Bool.not_eq_true] at hc
      by_cases hc2 : inRange cur addr (szSub (cur.1 + cur.2) addr) = true
      · by_cases hrem : szSub n (szSub (cur.1 + cur.2) addr) = 0
        · simp [readAlloc, hc, hc2, hrem] at h
          subst h
          rw [storeAt_length, List.length_append, List.length_replicate]
          simp only [readRange, List.length_ofFn]
          rw [szSub, szSub, SZW_lit] at *
          omega
        · simp [readAlloc, hc, hc2, hrem] at h
      · rw [Bool.not_eq_true] at hc2
        simp [readAlloc, hc, hc2] at h
  | cons next rest₂ ih =>
    intro cur addr n acc d h
    rw [splitReadLoop] at h
    by_cases hc : inRange cur addr n = true
    · simp [readAlloc, hc] at h
      subst h
      simp [storeAt_length, readRange]
    · rw [Bool.not_eq_true] at hc
      by_cases hc2 : inRange cur addr (szSub (cur.1 + cur.2) addr) = true
      · by_cases hrem : szSub n (szSub (cur.1 + cur.2) addr) = 0
        · simp [readAlloc, hc, hc2, hrem] at h
          subst h
          rw [storeAt_length, List.length_append, List.length_replicate]
          simp only [readRange, List.length_ofFn]
          rw [szSub, szSub, SZW_lit] at *
          omega
        · by_cases hgap : cur.1 + cur.2 = next.1
          · simp [readAlloc, hc, hc2, hrem] at h
            rw [if_pos hgap] at h
            have hlen := ih next next.1 (szSub n (szSub (cur.1 + cur.2) addr)) _ _ h
            rw [storeAt_length, List.length_append, List.length_replicate] at hlen
            simp only [readRange, List.length_ofFn] at hlen
            rw [hlen]
            rw [szSub, szSub, SZW_lit] at *
            omega
          · simp [readAlloc, hc, hc2, hrem, hgap] at h
      · rw [Bool.not_eq_true] at hc2
        simp [readAlloc, hc, hc2] at h

theorem inRange_eq_true_iff {e : Nat × Nat} {a n : Nat} :
    inRange e a n = true ↔
      n ≠ 0 ∧ e.1 ≤ a ∧ a < e.1 + e.2 ∧ e.1 ≤ a + n - 1 ∧ a + n - 1 < e.1 + e.2 := by
  simp [inRange, inRangeAddr, and_assoc]

/-- Claim C1 (code bug): over the adjacent pooled extents A = [0,16) and
B = [16,24) with memory holding byte value x at address x, splitRead(10,10)
returns a buffer of the right length 10, but filled with zeroes instead of
the concatenation of A's bytes [10,16) and B's bytes [16,20): the source
copies each chunk to result.data() + result.size() measured after the
resize, past the end of the buffer. -/
theorem claim1_splitRead_drops_chunk_bytes :
    splitRead stC1 10 10 = .ok (List.replicate 10 0) ∧
    readRange stC1.mem 10 6 ++ readRange stC1.mem 16 4 =
      [10, 11, 12, 13, 14, 15, 16, 17, 18, 19] ∧
    (List.replicate 10 0 : List Nat) ≠ [10, 11, 12, 13, 14, 15, 16, 17, 18, 19] :=
  ⟨by decide, by decide, by decide⟩

/-- Claim C2 counterexample: with adjacent pooled extents A = [0,16) and
B = [16,24), willSplit(5, 0) returns true although the empty span [5,5)
lies inside the covering extent A and does not cross its end (the
containment test requires size ≠ 0, so a zero-size request falls through
to the adjacency test). -/
theorem claim2_willSplit_zero_size_counterexample :
    willSplit stC2 5 0 = true ∧ ¬ (0 + 16 < 5 + 0) :=
  ⟨by decide, by decide⟩

/-- Claim C2 (amended): for every well-formed state and every size ≥ 1,
willSplit(a, n) is true iff some bound allocation covers a, the span
[a, a+n) crosses that allocation's end, and the end is itself a pooled
start address (by disjointness, necessarily the next pooled extent); in
particular it is false when no allocation covers a or when the span lies
inside the covering extent.  For size 0 the containment test is vacuously
false and willSplit can return true at an adjacent boundary. -/
theorem claim2_willSplit_adjacency_iff :
    ∀ s : SplitState, Wf s → ∀ a n : Nat, 1 ≤ n →
      (willSplit s a n = true ↔
        ∃ e, e ∈ s.binds ∧ e.1 ≤ a ∧ a < e.1 + e.2 ∧ e.1 + e.2 < a + n ∧
          ∃ m, (e.1 + e.2, m) ∈ s.pool) := by
  intro s hw a n hn
  constructor
  · intro h
    rw [willSplit] at h
    split at h
    · cases h
    · next e hf =>
      obtain ⟨hem, h1, h2⟩ := find_covers hw hf
      split at h
      · cases h
      · next hir =>
        split at h
        · cases h
        · next p hub =>
          have hpe : e.1 + e.2 = p.1 := of_decide_eq_true h
          obtain ⟨hpm, hpa⟩ := mapUB_mem hub
          have hcross : e.1 + e.2 < a + n := by
            by_contra hno
            exact hir (inRange_eq_true_iff.mpr ⟨by omega, h1, h2, by omega, by omega⟩)
          refine ⟨e, hem, h1, h2, hcross, p.2, ?_⟩
          rw [hpe]
          exact hpm
  · rintro ⟨e, hem, h1, h2, h3, m, hpm⟩
    have hfind := find_of_covers hw hem h1 h2
    rw [willSplit, hfind]
    show (if inRange e a n = true then false
      else match mapUB s.pool a with
        | none => false
        | some p => decide (e.1 + e.2 = p.1)) = true
    have hirF : ¬ inRange e a n = true := by
      rw [inRange_eq_true_iff]
      intro hx
      omega
    rw [if_neg hirF]
    obtain ⟨hps, hbs, hsub, hpos⟩ := hw
    have hub : mapUB s.pool a = some (e.1 + e.2, m) := by
      apply mapUB_eq (sorted_keys_lt hps hpos) hpm (by omega)
      intro q hq hqa
      by_cases hqe : e = q
      · rw [← hqe] at hqa
        omega
      · rcases disjoint_cases hps (hsub e hem) hq hqe with hd | hd <;> omega
    rw [hub]
    simp

/-- Witness for claim C2: the amended equivalence applied to the concrete
adjacent-extent state at the crossing span [10,20). -/
theorem claim2_witness :
    Wf stC2 ∧ 1 ≤ 10 ∧
      (willSplit stC2 10 10 = true ↔
        ∃ e, e ∈ stC2.binds ∧ e.1 ≤ 10 ∧ 10 < e.1 + e.2 ∧ e.1 + e.2 < 10 + 10 ∧
          ∃ m, (e.1 + e.2, m) ∈ stC2.pool) :=
  ⟨by decide, by decide, claim2_willSplit_adjacency_iff stC2 (by decide) 10 10 (by decide)⟩

/-- Claim C3: a split read that returns at all returns at least the
requested number of bytes (for any SIZE_T-representable size) - never a
truncated buffer - and in the gap scenario (extents [0,16), [16,24),
[30,40) with the hole [24,30)) the walk of splitRead(10, 20) reaches the
boundary 24 ≠ 30 with 6 bytes still owing and fails with SplitsExceeded. -/
theorem claim3_splitRead_gap_no_truncation :
    (∀ (s : SplitState) (a n : Nat) (d : List Nat), n < SZW →
        splitRead s a n = .ok d → n ≤ d.length) ∧
    splitRead stC3 10 20 = .error .splitsExceeded := by
  constructor
  · intro s a n d hn h
    rw [splitRead] at h
    split at h
    · cases h
    · next e0 hf =>
      split at h
      · cases h
      · split at h
        · cases h
        · next cur rest hwb =>
          have hlen := splitReadLoop_length s.mem rest cur a n [] d h
          simp at hlen
          rw [SZW_lit] at hlen hn
          omega
  · decide

/-- Witness for claim C3: the no-truncation bound applied to the
successful split read of [10,20) over adjacent extents. -/
theorem claim3_witness :
    10 < SZW ∧ 10 ≤ (List.replicate 10 (0 : Nat)).length :=
  ⟨by decide,
    claim3_splitRead_gap_no_truncation.1 stC3w 10 10 (List.replicate 10 0)
      (by decide) (by decide)⟩

/-- Claim C10: the split toggle is observable only through splits(); for
every state, extent, address and size, willSplit, splitRead, the
allocator-level read and the allocation-level read dispatch are identical
whether the flag was last set by allowSplitting or cleared by
denySplitting, because none of those routines consults the flag. -/
theorem claim10_split_toggle_inert :
    ∀ (s : SplitState) (e : Nat × Nat) (a n : Nat),
      splits (allowSplitting s) = true ∧ splits (denySplitting s) = false ∧
      willSplit (allowSplitting s) a n = willSplit (denySplitting s) a n ∧
      splitRead (allowSplitting s) a n = splitRead (denySplitting s) a n ∧
      readAt (allowSplitting s) a n = readAt (denySplitting s) a n ∧
      readAllocation (allowSplitting s) e a n = readAllocation (denySplitting s) e a n :=
  fun _ _ _ _ => ⟨rfl, rfl, rfl, rfl, rfl, rfl⟩

/-- Claim C5: release-on-empty-binding-set happens inside the very
rebind/unbind call that empties the set, and never while another
allocation remains bound.  With allocations ia and ib aliasing extent b:
unbinding ia leaves b pooled and ib bound; unbinding ib then empties the
set and unpools b within that call.  Rebinding a sole binding away from b
likewise unpools b inside the rebind call while the target extent stays
pooled. -/
theorem claim5_release_on_last_unbind :
    (∀ (st : BState) (ia ib b n : Nat),
      ia ≠ ib →
      st.pooled b = some n → st.binds b = some [ia, ib] →
      st.assoc ia = some b → st.assoc ib = some b →
      ∃ st₁, unbindB st ia = .ok st₁ ∧ isPooledB st₁ b = true ∧
        isBoundB st₁ ib = true ∧
        ∃ st₂, unbindB st₁ ib = .ok st₂ ∧ st₂.pooled b = none) ∧
    (∀ (st : BState) (ia b b2 n n2 : Nat),
      b ≠ b2 →
      st.pooled b = some n → st.pooled b2 = some n2 →
      st.binds b = some [ia] → st.binds b2 = none → st.assoc ia = some b →
      ∃ st₂, rebindB st ia b2 = .ok st₂ ∧ st₂.pooled b = none ∧
        st₂.pooled b2 = some n2 ∧ isBoundB st₂ ia = true) := by
  constructor
  · intro st ia ib b n hij hp hbl haa hab
    have hij' : ib ≠ ia := Ne.symm hij
    simp [unbindB, isPooledB, isBoundB, fupd, hij, hij', hp, hbl, haa, hab]
  · intro st ia b b2 n n2 hbb hp hp2 hbl hb2 haa
    have hbb' : b2 ≠ b := Ne.symm hbb
    simp [rebindB, bindB, isPooledB, isBoundB, insertSet, fupd, hbb, hbb', hp, hp2,
      hbl, hb2, haa]

/-- Witness for claim C5: the two-alias scenario on stB and the sole-alias
rebind on stB2. -/
theorem claim5_witness :
    (0 : Nat) ≠ 1 ∧ stB.pooled 1 = some 4 ∧ stB.binds 1 = some [0, 1] ∧
      (∃ st₁, unbindB stB 0 = .ok st₁ ∧ isPooledB st₁ 1 = true ∧
        isBoundB st₁ 1 = true ∧
        ∃ st₂, unbindB st₁ 1 = .ok st₂ ∧ st₂.pooled 1 = none) ∧
      (∃ st₂, rebindB stB2 0 8 = .ok st₂ ∧ st₂.pooled 1 = none ∧
        st₂.pooled 8 = some 2 ∧ isBoundB st₂ 0 = true) :=
  ⟨by decide, by decide, by decide,
    claim5_release_on_last_unbind.1 stB 0 1 1 4 (by decide) (by decide) (by decide)
      (by decide) (by decide),
    claim5_release_on_last_unbind.2 stB2 0 1 8 4 2 (by decide) (by decide) (by decide)
      (by decide) (by decide) (by decide)⟩

end V2

namespace V1

theorem cleared_handle_access (st₂ : LState) (i : Nat)
    (hh : st₂.hs i = ⟨0, 0⟩) (hb0 : st₂.binds 0 = none) :
    isValid st₂ i = false ∧ (∀ o k, readH st₂ i o k = .error .unbound) ∧
      (∀ o data, writeH st₂ i o data = .error .deadAllocation) := by
  refine ⟨by simp [isValid, hh], fun o k => ?_, fun o data => ?_⟩
  · rw [readH, readHAddr]
    simp [isBound, hh, hb0]
  · rw [writeH, addrOf]
    simp [isValid, invalidErr, hh, hb0]

/-- Claim C4: for every bound, valid part_001 allocation of size n and
every byte list data of length n, write(0, data) succeeds and the
immediate read(0, n) returns exactly data. -/
theorem claim4_write_read_roundtrip :
    ∀ (st : LState) (i b n : Nat) (data : List Nat) (l : List Nat),
      st.hs i = ⟨b, n⟩ → b ≠ 0 → n ≠ 0 → st.pool b = some n →
      st.binds b = some l → i ∈ l → data.length = n →
      ∃ st₂, writeH st i 0 data = .ok st₂ ∧ readH st₂ i 0 n = .ok data := by
  intro st i b n data l hh hb hn hp hbl hil hd
  have hbound : isBound st i = true := by simp [isBound, hh, hbl, hil]
  have hvalid : isValid st i = true := by simp [isValid, isPooled, hh, hb, hn, hp]
  have hw : writeH st i 0 data = .ok { st with mem := writeBytes st.mem b data } := by
    rw [writeH, addrOf]
    simp only [hvalid, writeHAddr, hh]
    rw [if_neg (by simp), if_neg (by simp)]
    simp only [Nat.add_zero]
    rw [if_neg (by simp [isBound, hh, hbl, hil]),
      if_neg (by simp [inRangeAddr2, inRangeAddr, hb, hn, hd, hh])]
  refine ⟨_, hw, ?_⟩
  rw [readH, readHAddr]
  rw [if_neg (by simp [isBound, hh, hbl, hil]), if_neg ?hr]
  case hr =>
    simp [inRangeAddr2, inRangeAddr, hh, hb, hn]
  simp only [hh, Nat.add_zero]
  rw [← hd, readRange_writeBytes]

/-- Witness for claim C4: the round trip on the concrete one-extent state
with data [1,2,3,4]. -/
theorem claim4_witness :
    stV1.hs 0 = ⟨1, 4⟩ ∧ stV1.pool 1 = some 4 ∧ stV1.binds 1 = some [0] ∧
      ∃ st₂, writeH stV1 0 0 [1, 2, 3, 4] = .ok st₂ ∧
        readH st₂ 0 0 4 = .ok [1, 2, 3, 4] :=
  ⟨by decide, by decide, by decide,
    claim4_write_read_roundtrip stV1 0 1 4 [1, 2, 3, 4] [0] (by decide) (by decide)
      (by decide) (by decide) (by decide) (by decide) (by decide)⟩

theorem unbind_ok (st : LState) (i : Nat) (h1 : isBound st i = true)
    (h2 : isPooled st (st.hs i).ptr = true) :
    ∃ st₂, unbind st i = .ok st₂ ∧ st₂.hs = fupd st.hs i ⟨0, 0⟩ ∧
      (∀ x, x ≠ (st.hs i).ptr → st₂.binds x = st.binds x) := by
  rw [unbind, if_neg (by simp [h1]), if_neg (by simp [h2])]
  dsimp only
  split
  · next hlen =>
    rw [if_pos ⟨hlen, h2⟩]
    refine ⟨_, rfl, rfl, fun x hx => ?_⟩
    dsimp only [unpoolRaw]
    exact fupd_other _ _ _ _ hx
  · next hlen =>
    rw [if_neg (fun hc => hlen hc.1)]
    refine ⟨_, rfl, rfl, fun x hx => ?_⟩
    exact fupd_other _ _ _ _ hx

/-- Claim C8: deallocating a valid, bound part_001 allocation succeeds;
afterwards isValid is false, every read fails with the unbound-allocation
error and every write with the dead-allocation error - logical conditions,
never the hardware-fault BadPointerException. -/
theorem claim8_deallocate_then_access :
    ∀ (st : LState) (i b n : Nat) (l : List Nat),
      st.hs i = ⟨b, n⟩ → b ≠ 0 → n ≠ 0 → st.pool b = some n →
      st.binds b = some l → i ∈ l → st.binds 0 = none →
      ∃ st₂, deallocate st i = .ok st₂ ∧ isValid st₂ i = false ∧
        (∀ o k, readH st₂ i o k = .error .unbound) ∧
        (∀ o data, writeH st₂ i o data = .error .deadAllocation) := by
  intro st i b n l hh hb hn hp hbl hil h0
  have hbound : isBound st i = true := by simp [isBound, hh, hbl, hil]
  have hvalid : isValid st i = true := by simp [isValid, isPooled, hh, hb, hn, hp]
  have hpool : isPooled st (st.hs i).ptr = true := by simp [isPooled, hh, hp]
  obtain ⟨st₂, hu, hhs, hbinds⟩ := unbind_ok st i hbound hpool
  have hb0 : st₂.binds 0 = none := by
    rw [hbinds 0 (by simp [hh]; exact Ne.symm hb), h0]
  have hcl := cleared_handle_access st₂ i (by rw [hhs, fupd_same]) hb0
  refine ⟨st₂, ?_, hcl.1, hcl.2.1, hcl.2.2⟩
  rw [deallocate, if_neg (by simp [hvalid]), if_neg (by simp [hbound]), hu]

/-- Witness for claim C8: deallocate on the concrete one-extent state,
then a probe read and write. -/
theorem claim8_witness :
    stV1.hs 0 = ⟨1, 4⟩ ∧ stV1.pool 1 = some 4 ∧ stV1.binds 1 = some [0] ∧
      stV1.binds 0 = none ∧
      ∃ st₂, deallocate stV1 0 = .ok st₂ ∧ isValid st₂ 0 = false ∧
        (∀ o k, readH st₂ 0 o k = .error .unbound) ∧
        (∀ o data, writeH st₂ 0 o data = .error .deadAllocation) :=
  ⟨by decide, by decide, by decide, by decide,
    claim8_deallocate_then_access stV1 0 1 4 [0] (by decide) (by decide) (by decide)
      (by decide) (by decide) (by decide) (by decide)⟩

/-- Claim C9: with two allocations ida (allocator-created) and idb both
bound to the pooled extent at b, Allocator::deallocate(ida) unpools the
shared extent unconditionally: the binding sweep unbinds idb as well, its
handle is cleared, and b leaves the pool. -/
theorem claim9_allocator_deallocate_unpools_shared :
    ∀ (st : LState) (ida idb b n sa sb : Nat),
      ida ≠ idb → b ≠ 0 →
      st.hs ida = ⟨b, sa⟩ → st.hs idb = ⟨b, sb⟩ →
      st.pool b = some n → st.binds b = some [ida, idb] →
      st.allocs ida = true → st.binds 0 = none →
      ∃ st₂, deallocateA st ida = .ok st₂ ∧
        st₂.pool b = none ∧ st₂.hs idb = ⟨0, 0⟩ ∧ isBound st₂ idb = false := by
  intro st ida idb b n sa sb hij hb ha hbd hp hbl hal h0
  have hij' : idb ≠ ida := Ne.symm hij
  have hb' : (0 : Nat) ≠ b := Ne.symm hb
  simp [deallocateA, unpool, unbindList, unbind, unpoolRaw, isBound, isPooled,
    invalidErr, fupd, ha, hbd, hp, hbl, hal, h0, hij, hij', hb, hb']

/-- Witness for claim C9: allocator-level deallocate of handle 0 on the
doubly-aliased extent of stV1b also unbinds handle 1 and unpools the
extent. -/
theorem claim9_witness :
    (0 : Nat) ≠ 1 ∧ stV1b.binds 1 = some [0, 1] ∧ stV1b.allocs 0 = true ∧
      ∃ st₂, deallocateA stV1b 0 = .ok st₂ ∧
        st₂.pool 1 = none ∧ st₂.hs 1 = ⟨0, 0⟩ ∧ isBound st₂ 1 = false :=
  ⟨by decide, by decide, by decide,
    claim9_allocator_deallocate_unpools_shared stV1b 0 1 1 4 4 4 (by decide)
      (by decide) (by decide) (by decide) (by decide) (by decide) (by decide)
      (by decide)⟩

/-- The bytes a shrink leaves at the fresh extent: past the old extent,
the pool-time zeroing and the final zeroing of the old extent do not
reach the copied window, which holds the old leading bytes. -/
theorem readRange_shrink (mem : Nat → Nat) (b n m nx : Nat)
    (h1 : b + n ≤ nx) (h2 : m ≤ n) :
    readRange (zeroRange (copyRange (zeroRange mem nx m) nx b m) b n) nx m =
      readRange mem b m := by
  rw [readRange, readRange]
  congr 1
  funext j
  have hj := j.isLt
  simp only [zeroRange, copyRange]
  rw [if_neg (by omega), if_pos (by omega), if_neg (by omega)]
  congr 1
  omega

/-- Claim C6: shrinking a valid, solely-bound allocation of size n with
reallocate(m), 0 < m < n, rebinds the handle to the fresh extent at the
old pool boundary and preserves the first m bytes: repool copies
min(newSize, oldSize) leading bytes into the new extent before rebinding
and unpooling the old one, so reading the shrunk allocation returns the
old extent's first m bytes. -/
theorem claim6_reallocate_shrink_keeps_leading_bytes :
    ∀ (st : LState) (i b n m : Nat),
      st.hs i = ⟨b, n⟩ → b ≠ 0 → st.pool b = some n →
      st.binds b = some [i] → st.binds st.next = none →
      b + n ≤ st.next → 0 < m → m < n →
      ∃ st₂, reallocate st i m = .ok st₂ ∧
        st₂.hs i = ⟨st.next, m⟩ ∧
        readH st₂ i 0 m = .ok (readRange st.mem b m) := by
  intro st i b n m hh hb hp hbl hnx hbn hm0 hmn
  have hn0 : n ≠ 0 := by omega
  have hm0' : m ≠ 0 := by omega
  have hbnx : b ≠ st.next := by omega
  have hnxb : st.next ≠ b := by omega
  have hnx0 : st.next ≠ 0 := by omega
  simp [reallocate, isValid, isPooled, repool, pool, rebindList, rebind, bind, isBound,
    unpool, unbindList, unpoolRaw, readH, readHAddr, inRangeAddr2, inRangeAddr,
    insertSet, fupd, hh, hb, hp, hbl, hnx, hm0', hn0, hbnx, hnxb, hnx0,
    Nat.min_eq_left (Nat.le_of_lt hmn),
    readRange_shrink st.mem b n m st.next hbn (Nat.le_of_lt hmn)]

/-- Witness for claim C6: shrinking the 4-byte extent of stV1 to 2 bytes
after writing [1,2,3,4]. -/
theorem claim6_witness :
    stV1.hs 0 = ⟨1, 4⟩ ∧ stV1.pool 1 = some 4 ∧ stV1.binds 1 = some [0] ∧
      ∃ st₂, reallocate stV1 0 2 = .ok st₂ ∧ st₂.hs 0 = ⟨5, 2⟩ ∧
        readH st₂ 0 0 2 = .ok (readRange stV1.mem 1 2) :=
  ⟨by decide, by decide, by decide,
    claim6_reallocate_shrink_keeps_leading_bytes stV1 0 1 4 2 (by decide) (by decide)
      (by decide) (by decide) (by decide) (by decide) (by decide) (by decide)⟩

end V1

/-- Claim C7 counterexample: in the pointer-based revision, inRange uses an
inclusive end and no size-positivity test, so the zero-size access at
offset 0 of a live 16-byte allocation is reported in range, contradicting
the claimed iff (which requires s > 0). -/
theorem claim7_zero_size_counterexample :
    V1.inRangeOff2 ⟨1, 16⟩ 0 0 = true ∧ ¬ (0 + 0 ≤ 16 ∧ 0 < 0) :=
  ⟨by decide, by decide⟩

/-- Claim C7 (amended): the Address-based revision's inRange satisfies the
claimed half-open iff - an access of size s at offset o is in range iff
o + s ≤ logicalSize and s > 0; the pointer-based revision instead uses an
inclusive end, where (for a live handle) the access is in range iff
o + s ≤ logicalSize, zero-size accesses included. -/
theorem claim7_inRange_iff :
    ∀ (base o n sz : Nat),
      (V2.inRangeOff2 (base, sz) o n = true ↔ 0 < n ∧ o + n ≤ sz) ∧
      (∀ p : Nat, p ≠ 0 → sz ≠ 0 →
        (V1.inRangeOff2 ⟨p, sz⟩ o n = true ↔ o + n ≤ sz)) := by
  intro base o n sz
  constructor
  · by_cases hsz : sz = 0
    · subst hsz
      simp [V2.inRangeOff2, V2.inRangeOff]
      omega
    · simp [V2.inRangeOff2, V2.inRangeOff, V2.inRangeAddr, hsz]
      omega
  · intro p hp hsz
    simp [V1.inRangeOff2, V1.inRangeOff, hp, hsz]
    omega

/-- Witness for claim C7: both equivalences applied at offset 4, size 8,
logical size 16 with base pointer 1. -/
theorem claim7_witness :
    (1 : Nat) ≠ 0 ∧ (16 : Nat) ≠ 0 ∧
      (V1.inRangeOff2 ⟨1, 16⟩ 4 8 = true ↔ 4 + 8 ≤ 16) :=
  ⟨by decide, by decide, (claim7_inRange_iff 0 4 8 16).2 1 (by decide) (by decide)⟩

end Neurology
